import Mathlib

/-!
Shallow embedding of the core of the temperature-monitor repository
(src/services/pdf_parser.py and src/services/location_manager.py), together
with theorems settling the frozen claims about it.

Modelling conventions:
* Python decimal literals and `float(...)` conversions of matched decimal
  digit strings are modelled exactly as rationals (`Rat`).
* Wall-clock readings (`datetime.now()` and its `isoformat()` rendering) are
  modelled by an explicit `now : Nat` clock argument.
* Python `dict` objects are modelled as insertion-ordered association lists
  with unique keys: assignment is `setKey`, `del` is `eraseKey`.
* The regular expressions in the source have the property that greedy
  maximal-munch scanning coincides with backtracking search (after every
  greedy repetition the pattern requires a character the repetition could
  not have consumed), so they are modelled by direct maximal-munch scanners.
-/

namespace TemperatureMonitor

/-- Does the pattern `pat` occur at the head of `cs`? -/
def headMatches : List Char → List Char → Bool
  | [], _ => true
  | _ :: _, [] => false
  | p :: ps, c :: cs => p = c && headMatches ps cs

/-- Python substring containment `pat in s`, on character lists. -/
def containsSub : List Char → List Char → Bool
  | [], pat => headMatches pat []
  | c :: cs, pat => headMatches pat (c :: cs) || containsSub cs pat

/-- Python substring containment `pat in s` on strings. -/
def strContains (s pat : String) : Bool :=
  containsSub s.data pat.data

/-- Longest prefix of `cs` whose characters satisfy `p`, and the rest
(the behaviour of a greedy character-class repetition in a regex). -/
def spanP (p : Char → Bool) : List Char → List Char × List Char
  | [] => ([], [])
  | c :: cs =>
    if p c then
      let r := spanP p cs
      (c :: r.1, r.2)
    else ([], c :: cs)

theorem spanP_length (p : Char → Bool) (cs : List Char) :
    (spanP p cs).1.length + (spanP p cs).2.length = cs.length := by
  induction cs with
  | nil => rfl
  | cons c cs ih =>
    cases h : p c
    · simp [spanP, h]
    · simp only [spanP, h, List.length_cons, if_true]
      omega

/-- Numeric value of a digit string. -/
def natOfDigits (ds : List Char) : Nat :=
  ds.foldl (fun a c => 10 * a + (c.toNat - 48)) 0

/-- Value of a matched decimal numeral with integer digits `ip` and
fractional digits `fp`, as Python `float` of the matched text: the integer
part plus the fraction digits scaled by their power of ten, built with
`mkRat` so that the value computes by kernel reduction. -/
def ratOfDigits (ip fp : List Char) : Rat :=
  mkRat (natOfDigits ip * 10 ^ fp.length + natOfDigits fp) (10 ^ fp.length)

theorem ratOfDigits_nonneg (ip fp : List Char) : 0 ≤ ratOfDigits ip fp := by
  unfold ratOfDigits
  rw [Rat.mkRat_eq_div]
  positivity

/-- Maximal-munch match of the regex fragment for an unsigned decimal with a
mandatory point (digits, a dot, digits) at the head of `cs`: integer digits,
fraction digits, and the rest of the input. -/
def matchNum (cs : List Char) : Option (List Char × List Char × List Char) :=
  match spanP Char.isDigit cs with
  | ([], _) => none
  | (d :: ds, r1) =>
    match r1 with
    | '.' :: r2 =>
      match spanP Char.isDigit r2 with
      | ([], _) => none
      | (e :: es, r3) => some (d :: ds, e :: es, r3)
    | _ => none

theorem matchNum_length {cs d1 d2 rest} (h : matchNum cs = some (d1, d2, rest)) :
    rest.length < cs.length := by
  unfold matchNum at h
  split at h
  · exact absurd h (by simp)
  · rename_i d ds r1 hspan1
    split at h
    · rename_i r2
      split at h
      · exact absurd h (by simp)
      · rename_i e es r3 hspan2
        injection h with h1
        injection h1 with h2 h3
        injection h3 with h4 h5
        subst h5
        have l1 := spanP_length Char.isDigit cs
        have l2 := spanP_length Char.isDigit r2
        rw [hspan1] at l1
        rw [hspan2] at l2
        simp only [List.length_cons] at l1 l2
        omega
    · exact absurd h (by simp)

/-- Match of the literal degrees-Celsius unit at the head of the input. -/
def matchDegC : List Char → Option (List Char)
  | c1 :: c2 :: rest => if c1 = '°' ∧ c2 = 'C' then some rest else none
  | _ => none

theorem matchDegC_length {cs rest} (h : matchDegC cs = some rest) :
    rest.length + 2 = cs.length := by
  cases cs with
  | nil => exact absurd h (by simp [matchDegC])
  | cons c1 t =>
    cases t with
    | nil => exact absurd h (by simp [matchDegC])
    | cons c2 r =>
      simp only [matchDegC] at h
      split at h
      · injection h with h1
        subst h1
        simp
      · exact absurd h (by simp)

/-- Maximal-munch match at the head of the input of the recordings pattern
of pdf_parser.py line 305 (two captured unsigned decimals, each followed by
the degree unit, separated by whitespace), returning the two captured
values and the rest of the input. -/
def matchPairAt (cs : List Char) : Option (Rat × Rat × List Char) :=
  match matchNum cs with
  | none => none
  | some (i1, f1, r1) =>
    match matchDegC r1 with
    | none => none
    | some r2 =>
      match spanP Char.isWhitespace r2 with
      | ([], _) => none
      | (_ :: _, r3) =>
        match matchNum r3 with
        | none => none
        | some (i2, f2, r4) =>
          match matchDegC r4 with
          | none => none
          | some r5 => some (ratOfDigits i1 f1, ratOfDigits i2 f2, r5)

theorem matchPairAt_length {cs a b rest} (h : matchPairAt cs = some (a, b, rest)) :
    rest.length < cs.length := by
  unfold matchPairAt at h
  split at h
  · exact absurd h (by simp)
  · rename_i i1 f1 r1 hn1
    split at h
    · exact absurd h (by simp)
    · rename_i r2 hdeg1
      split at h
      · exact absurd h (by simp)
      · rename_i w ws r3 hspan
        split at h
        · exact absurd h (by simp)
        · rename_i i2 f2 r4 hn2
          split at h
          · exact absurd h (by simp)
          · rename_i r5 hdeg2
            injection h with h1
            injection h1 with h2 h3
            injection h3 with h4 h5
            subst h5
            have l1 := matchNum_length hn1
            have l2 := matchDegC_length hdeg1
            have l3 := spanP_length Char.isWhitespace r2
            rw [hspan] at l3
            simp only [List.length_cons] at l3
            have l4 := matchNum_length hn2
            have l5 := matchDegC_length hdeg2
            omega

theorem matchPairAt_nonneg {cs a b rest} (h : matchPairAt cs = some (a, b, rest)) :
    0 ≤ a ∧ 0 ≤ b := by
  unfold matchPairAt at h
  split at h
  · exact absurd h (by simp)
  · split at h
    · exact absurd h (by simp)
    · split at h
      · exact absurd h (by simp)
      · split at h
        · exact absurd h (by simp)
        · split at h
          · exact absurd h (by simp)
          · injection h with h1
            injection h1 with h2 h3
            injection h3 with h4 h5
            subst h2 h4
            exact ⟨ratOfDigits_nonneg _ _, ratOfDigits_nonneg _ _⟩

/-- Fuel-driven scanning loop of `re.findall` of the recordings pattern:
take non-overlapping matches left to right, advancing one character past
every position where no match starts. Each step shortens the input, so any
fuel above the input length makes the fuel irrelevant
(`findPairsAux_fuel`); structural recursion on the fuel keeps the scanner
kernel-computable. -/
def findPairsAux : Nat → List Char → List (Rat × Rat)
  | 0, _ => []
  | fuel + 1, cs =>
    match matchPairAt cs with
    | some (a, b, rest) => (a, b) :: findPairsAux fuel rest
    | none =>
      match cs with
      | [] => []
      | _ :: cs2 => findPairsAux fuel cs2

/-- Python `re.findall` of the recordings pattern over a line. -/
def findPairs (cs : List Char) : List (Rat × Rat) :=
  findPairsAux (cs.length + 1) cs

theorem findPairsAux_succ (fuel : Nat) (cs : List Char) :
    findPairsAux (fuel + 1) cs =
      match matchPairAt cs with
      | some (a, b, rest) => (a, b) :: findPairsAux fuel rest
      | none =>
        match cs with
        | [] => []
        | _ :: cs2 => findPairsAux fuel cs2 := rfl

theorem findPairsAux_succ_some {cs : List Char} {a b : Rat} {rest : List Char}
    (h : matchPairAt cs = some (a, b, rest)) (fuel : Nat) :
    findPairsAux (fuel + 1) cs = (a, b) :: findPairsAux fuel rest := by
  rw [findPairsAux_succ, h]

theorem findPairsAux_succ_none {cs : List Char} (h : matchPairAt cs = none) (fuel : Nat) :
    findPairsAux (fuel + 1) cs =
      match cs with
      | [] => []
      | _ :: cs2 => findPairsAux fuel cs2 := by
  rw [findPairsAux_succ, h]
  cases cs with
  | nil => rfl
  | cons c cs2 => rfl

theorem findPairsAux_fuel :
    ∀ (f1 : Nat) (cs : List Char) (f2 : Nat), cs.length < f1 → cs.length < f2 →
      findPairsAux f1 cs = findPairsAux f2 cs := by
  intro f1
  induction f1 with
  | zero => intro cs f2 h1; omega
  | succ n ih =>
    intro cs f2 h1 h2
    cases f2 with
    | zero => omega
    | succ m =>
      cases hm : matchPairAt cs with
      | some v =>
        obtain ⟨a, b, rest⟩ := v
        have hlen := matchPairAt_length hm
        rw [findPairsAux_succ_some hm, findPairsAux_succ_some hm]
        rw [ih rest m (by omega) (by omega)]
      | none =>
        cases cs with
        | nil => rfl
        | cons c cs2 =>
          simp only [List.length_cons] at h1 h2
          rw [findPairsAux_succ_none hm, findPairsAux_succ_none hm]
          exact ih cs2 m (by omega) (by omega)

theorem findPairs_eq_some {cs : List Char} {a b : Rat} {rest : List Char}
    (h : matchPairAt cs = some (a, b, rest)) :
    findPairs cs = (a, b) :: findPairs rest := by
  have hlen := matchPairAt_length h
  show findPairsAux (cs.length + 1) cs = _
  rw [findPairsAux_succ_some h]
  unfold findPairs
  rw [findPairsAux_fuel cs.length rest (rest.length + 1) (by omega) (by omega)]

theorem findPairs_eq_none {cs : List Char} (h : matchPairAt cs = none) :
    findPairs cs = match cs with | [] => [] | _ :: cs2 => findPairs cs2 := by
  show findPairsAux (cs.length + 1) cs = _
  rw [findPairsAux_succ_none h]
  cases cs with
  | nil => rfl
  | cons c cs2 =>
    show findPairsAux (cs2.length + 1) cs2 = findPairs cs2
    rfl

theorem findPairsAux_nonneg :
    ∀ (fuel : Nat) (cs : List Char), ∀ p ∈ findPairsAux fuel cs, 0 ≤ p.1 ∧ 0 ≤ p.2 := by
  intro fuel
  induction fuel with
  | zero => intro cs p hp; simp [findPairsAux] at hp
  | succ n ih =>
    intro cs p hp
    cases hm : matchPairAt cs with
    | some v =>
      obtain ⟨a, b, rest⟩ := v
      rw [findPairsAux_succ_some hm] at hp
      rcases List.mem_cons.mp hp with hpe | hpm
      · subst hpe
        exact matchPairAt_nonneg hm
      · exact ih rest p hpm
    | none =>
      rw [findPairsAux_succ_none hm] at hp
      cases cs with
      | nil => simp at hp
      | cons c cs2 => exact ih cs2 p hp

theorem findPairs_nonneg (cs : List Char) :
    ∀ p ∈ findPairs cs, 0 ≤ p.1 ∧ 0 ≤ p.2 :=
  findPairsAux_nonneg (cs.length + 1) cs

/-- Optional-fraction part of the alarm-threshold pattern: a dot followed by
greedily matched digits, or nothing. -/
def matchFrac : List Char → List Char × List Char
  | '.' :: r2 => spanP Char.isDigit r2
  | r1 => ([], r1)

/-- Maximal-munch match at the head of the input of the alarm-threshold
pattern of pdf_parser.py lines 203 and 210 (an unsigned decimal with
optional point and optional fraction digits, optional whitespace, then the
degree unit), returning the captured value. -/
def matchThreshAt (cs : List Char) : Option Rat :=
  match spanP Char.isDigit cs with
  | ([], _) => none
  | (d :: ds, r1) =>
    match spanP Char.isWhitespace (matchFrac r1).2 with
    | (_, c1 :: c2 :: _) =>
      if c1 = '°' ∧ c2 = 'C' then some (ratOfDigits (d :: ds) (matchFrac r1).1) else none
    | _ => none

theorem matchThreshAt_nonneg {cs v} (h : matchThreshAt cs = some v) : 0 ≤ v := by
  unfold matchThreshAt at h
  split at h
  · exact absurd h (by simp)
  · split at h
    · split at h
      · injection h with h1
        subst h1
        exact ratOfDigits_nonneg _ _
      · exact absurd h (by simp)
    · exact absurd h (by simp)

/-- Python `re.search` of the alarm-threshold pattern over a line: the value
of the first match, scanning start positions left to right. -/
def searchThresh : List Char → Option Rat
  | [] => none
  | c :: cs =>
    match matchThreshAt (c :: cs) with
    | some v => some v
    | none => searchThresh cs

theorem searchThresh_nonneg {cs v} (h : searchThresh cs = some v) : 0 ≤ v := by
  induction cs with
  | nil => exact absurd h (by simp [searchThresh])
  | cons c cs ih =>
    unfold searchThresh at h
    split at h
    · rename_i w hw
      injection h with h1
      subst h1
      exact matchThreshAt_nonneg hw
    · exact ih h

/-- Maximal-munch match at the head of the input of the device-serial
pattern of pdf_parser.py line 196 (the literal marker, optional whitespace,
then captured digits). -/
def matchSNAt (cs : List Char) : Option (List Char) :=
  if headMatches ("Device S/N:".data) cs then
    match spanP Char.isDigit (spanP Char.isWhitespace (cs.drop ("Device S/N:".data.length))).2 with
    | ([], _) => none
    | (d :: ds, _) => some (d :: ds)
  else none

/-- Python `re.search` of the device-serial pattern over a line: the digits
captured by the first match. -/
def searchSN : List Char → Option String
  | [] => none
  | c :: cs =>
    match matchSNAt (c :: cs) with
    | some ds => some (String.mk ds)
    | none => searchSN cs

/-- Python `str.strip()`: drop leading and trailing whitespace. Implemented
on the character list so that it evaluates by kernel reduction (the built-in
`String.trim` walks byte positions and does not). -/
def pyStrip (s : String) : String :=
  String.mk (((s.data.dropWhile Char.isWhitespace).reverse.dropWhile
    Char.isWhitespace).reverse)

/-- Python `text.split('\n')`, on the character list. -/
def splitLinesChars : List Char → List (List Char)
  | [] => [[]]
  | c :: cs =>
    if c = '\n' then [] :: splitLinesChars cs
    else
      match splitLinesChars cs with
      | [] => [[c]]
      | l :: ls => (c :: l) :: ls

/-- Python `text.split('\n')`. -/
def pySplitLines (s : String) : List String :=
  (splitLinesChars s.data).map String.mk

/-- Python `s.startswith(pat)`. -/
def pyStartsWith (s pat : String) : Bool :=
  headMatches pat.data s.data

/-- Python slicing `s[n:]` (by code point, as in Python). -/
def pyDrop (s : String) (n : Nat) : String :=
  String.mk (s.data.drop n)

/-- Python `len(s)` (code points). -/
def pyLen (s : String) : Nat :=
  s.data.length

/-- Python `s.lower()` (ASCII case mapping, which covers every keyword the
source compares against). -/
def pyLower (s : String) : String :=
  String.mk (s.data.map Char.toLower)

/-- Python `sep.join(parts)`. -/
def joinWith (sep : String) : List String → String
  | [] => ""
  | [s] => s
  | s :: rest => s ++ sep ++ joinWith sep rest

/-- Python dict assignment `d[k] = v` on an insertion-ordered association
list: update the binding in place if the key is present, append otherwise. -/
def setKey {α : Type} : List (String × α) → String → α → List (String × α)
  | [], k, v => [(k, v)]
  | (k0, v0) :: t, k, v => if k0 = k then (k, v) :: t else (k0, v0) :: setKey t k v

/-- Python dict update `d[k] = f d[k]`; the callers below only use it when
the key is present. -/
def updKey {α : Type} : List (String × α) → String → (α → α) → List (String × α)
  | [], _, _ => []
  | (k0, v0) :: t, k, f => if k0 = k then (k0, f v0) :: t else (k0, v0) :: updKey t k f

/-- Python dict lookup `d.get(k)` / containment `k in d`. -/
def lookupKey {α : Type} : List (String × α) → String → Option α
  | [], _ => none
  | (k0, v0) :: t, k => if k0 = k then some v0 else lookupKey t k

/-- Python dict deletion `del d[k]`. -/
def eraseKey {α : Type} : List (String × α) → String → List (String × α)
  | [], _ => []
  | (k0, v0) :: t, k => if k0 = k then t else (k0, v0) :: eraseKey t k

/-- A completed location dict emitted by the executing `_extract_locations`
(pdf_parser.py lines 222-231); `device_model` and `log_interval` are read
with `.get` but never written, so they are always `none`. -/
structure LocationBlock where
  name : String
  raw_name : String
  description : String
  device_sn : Option String
  device_model : Option String
  log_interval : Option String
  min_temp_threshold : Option Rat
  max_temp_threshold : Option Rat
deriving DecidableEq

/-- The `current_location_info` accumulator dict of `_extract_locations`. -/
structure LocAccum where
  name : Option String := none
  description : Option String := none
  device_sn : Option String := none
  min_temp_threshold : Option Rat := none
  max_temp_threshold : Option Rat := none
deriving DecidableEq

/-- The context string of pdf_parser.py lines 201 and 208: the space-join of
the raw (unstripped) lines from index `i - 2` (clamped at 0) through `i`. -/
def contextJoin (lines : List String) (i : Nat) : String :=
  joinWith " " ((lines.take (i + 1)).drop (i - 2))

/-- Name lookahead of the executing `_extract_locations` (pdf_parser.py
lines 169-184): accept the first candidate line, but stop at a field-label
line. The argument is the list of line indices the Python `range` visits. -/
def nameLookahead (lines : List String) : List Nat → Option String
  | [] => none
  | j :: js =>
    let nl := pyStrip (lines.getD j "")
    if nl ≠ "" ∧
       nl ∉ ["Description", "Device", "Device Model", "Log Interval", "View Location",
             "Temperature"] ∧
       ¬ pyStartsWith nl "S/N:" ∧ ¬ pyStartsWith nl "CLT-" ∧ ¬ pyStartsWith nl "Device S/N:" ∧
       pyLen nl < 50
    then some nl
    else if nl ∈ ["Description", "Device", "Device Model"] then none
    else nameLookahead lines js

/-- Same-line case of the name field of the executing `_extract_locations`
(pdf_parser.py lines 157-166): the text after the `Name` label, when it is a
plausible name. -/
def locSameLineName (line : String) : Option String :=
  if 4 < pyLen line then
    let np := pyStrip (pyDrop line 4)
    if np ≠ "" ∧
       np ∉ ["Description", "Device", "Device Model", "Log Interval", "View Location"] ∧
       ¬ pyStartsWith np "S/N:" ∧ ¬ pyStartsWith np "CLT-" ∧ pyLen np < 50
    then some np else none
  else none

/-- Full name resolution of the executing `_extract_locations`: the
same-line candidate, else the bounded lookahead. -/
def locResolveName (lines : List String) (i : Nat) (line : String) : Option String :=
  match locSameLineName line with
  | some np => some np
  | none => nameLookahead lines (List.range' (i + 1) (min (i + 3) lines.length - (i + 1)))

/-- Next-line value of the `Description` field (pdf_parser.py lines
187-193), when present and plausible. -/
def locDescNext (lines : List String) (i : Nat) : Option String :=
  if i + 1 < lines.length then
    let desc := pyStrip (lines.getD (i + 1) "")
    if desc ≠ "" ∧ desc ∉ ["Device", "Device Model"] then some desc else none
  else none

/-- Body of one iteration of the line loop of the executing
`_extract_locations` (pdf_parser.py lines 138-236), applied to the stripped
line `line`; the state is the `current_location_info` accumulator paired
with the `locations_found` list. -/
def locLineStep (lines : List String) (i : Nat) (line : String)
    (st : Option LocAccum × List LocationBlock) : Option LocAccum × List LocationBlock :=
  if line = "" then st
  else if line = "Location Details" then (some {}, st.2)
  else
    match st.1 with
    | none => st
    | some info =>
      if pyStartsWith line "Name" ∧ info.name = none then
        match locResolveName lines i line with
        | some nm => (some { info with name := some nm }, st.2)
        | none => st
      else if pyStartsWith line "Description" then
        match locDescNext lines i with
        | some desc => (some { info with description := some desc }, st.2)
        | none => st
      else if pyStartsWith line "Device S/N:" then
        match searchSN line.data with
        | some sn => (some { info with device_sn := some sn }, st.2)
        | none => st
      else if strContains line "Alarm Threshold" ∧
              strContains (contextJoin lines i) "Low Temperature" then
        match searchThresh line.data with
        | some v => (some { info with min_temp_threshold := some v }, st.2)
        | none => st
      else if strContains line "Alarm Threshold" ∧
              strContains (contextJoin lines i) "High Temperature" then
        match searchThresh line.data with
        | some v => (some { info with max_temp_threshold := some v }, st.2)
        | none => st
      else if line = "Temperature" ∧ info.name.isSome then
        (none, st.2 ++ [{
          name := pyStrip (info.name.getD ""),
          raw_name := pyStrip (info.name.getD ""),
          description := info.description.getD "",
          device_sn := info.device_sn,
          device_model := none,
          log_interval := none,
          min_temp_threshold := info.min_temp_threshold,
          max_temp_threshold := info.max_temp_threshold }])
      else st

/-- One iteration of the line loop of the executing `_extract_locations`:
strip the current line and run the body. -/
def locStep (lines : List String) (i : Nat) (st : Option LocAccum × List LocationBlock) :
    Option LocAccum × List LocationBlock :=
  locLineStep lines i (pyStrip (lines.getD i "")) st

/-- Model of the executing (second) definition of
`PDFTemperatureParser._extract_locations` (pdf_parser.py lines 130-239). -/
def _extract_locations (text_content : String) : List LocationBlock :=
  let lines := pySplitLines text_content
  ((List.range lines.length).foldl (fun st i => locStep lines i st) (none, [])).2

/-- Model of the shadowed (first) definition of
`PDFTemperatureParser._extract_locations` (pdf_parser.py lines 111-128): the
loop body only tests for the sentinel and `continue`s, so the `locations`
list is never extended. -/
def _extract_locations_v1 (text_content : String) : List LocationBlock :=
  let lines := pySplitLines text_content
  lines.foldl
    (fun locations line => if pyStrip line = "Location Details" then locations else locations)
    ([] : List LocationBlock)

/-- A temperature-reading dict emitted by `_extract_temperatures`
(pdf_parser.py lines 339-358). -/
structure TempSample where
  value : Rat
  unit : String
  type : String
  location : String
  context : String
  timestamp : Nat
  reading_count : Nat
deriving DecidableEq

/-- Scan state of `_extract_temperatures`: `current_location`,
`in_recordings_section`, and the insertion-ordered `location_temperatures`
dict mapping a location name to its min list and max list. -/
structure TScan where
  current_location : Option String
  in_recordings_section : Bool
  location_temperatures : List (String × List Rat × List Rat)
deriving DecidableEq

/-- Name lookahead of `_extract_temperatures` (pdf_parser.py lines 278-287):
unlike the block parser's lookahead it does not stop at field labels and has
no length cap. -/
def tempNameLookahead (lines : List String) : List Nat → Option String
  | [] => none
  | j :: js =>
    let nl := pyStrip (lines.getD j "")
    if nl ≠ "" ∧
       nl ∉ ["Description", "Device", "Device Model", "Log Interval", "View Location",
             "Temperature"] ∧
       ¬ pyStartsWith nl "S/N:" ∧ ¬ pyStartsWith nl "CLT-"
    then some nl
    else tempNameLookahead lines js

/-- Appending one scanned pair to the min and max lists, with the
plausibility bound of pdf_parser.py line 317. -/
def appendValid (ml : List Rat × List Rat) (p : Rat × Rat) : List Rat × List Rat :=
  if p.1 < -50 ∨ 100 < p.1 ∨ p.2 < -50 ∨ 100 < p.2 then ml
  else (ml.1 ++ [p.1], ml.2 ++ [p.2])

/-- Same-line case of the name field in `_extract_temperatures`
(pdf_parser.py lines 269-275); its exclusion list is shorter than the block
parser's. -/
def tempSameLineName (line : String) : Option String :=
  if 4 < pyLen line then
    let np := pyStrip (pyDrop line 4)
    if np ≠ "" ∧ np ∉ ["Description", "Device", "Device Model"] ∧ pyLen np < 50 then some np
    else none
  else none

/-- Full name resolution of `_extract_temperatures`: the same-line
candidate, else the two-line lookahead. -/
def tempResolveName (lines : List String) (i : Nat) (line : String) : Option String :=
  match tempSameLineName line with
  | some n => some n
  | none => tempNameLookahead lines (List.range' (i + 1) (min (i + 3) lines.length - (i + 1)))

/-- The recordings-table handling of `_extract_temperatures` (pdf_parser.py
lines 302-324): while inside a recordings section with a current location,
scan the line for pairs and append the plausible ones. -/
def tempScanPairs (line : String) (st : TScan) : TScan :=
  match st.current_location with
  | some loc =>
    if st.in_recordings_section then
      let newTemps :=
        updKey st.location_temperatures loc
          (fun ml => (findPairs line.data).foldl appendValid ml)
      { st with location_temperatures := newTemps }
    else st
  | none => st

/-- Body of one iteration of the line loop of `_extract_temperatures`
(pdf_parser.py lines 251-328), applied to the stripped line `line`. -/
def tempLineStep (lines : List String) (i : Nat) (line : String) (st : TScan) : TScan :=
  if line = "" then st
  else if pyStartsWith line "Location Details" then
    { st with in_recordings_section := false, current_location := none }
  else if pyStartsWith line "Name" ∧ st.current_location = none then
    match tempResolveName lines i line with
    | some n =>
      { st with current_location := some (pyStrip n),
                location_temperatures := setKey st.location_temperatures (pyStrip n) ([], []) }
    | none => st
  else if line = "Recordings" ∧ st.current_location.isSome then
    { st with in_recordings_section := true }
  else
    let st1 := tempScanPairs line st
    if pyStartsWith line "Location Details" ∧ st1.current_location.isSome then
      { st1 with in_recordings_section := false }
    else st1

/-- One iteration of the line loop of `_extract_temperatures`. -/
def tempStep (lines : List String) (i : Nat) (st : TScan) : TScan :=
  tempLineStep lines i (pyStrip (lines.getD i "")) st

/-- One comparison step of Python `min` over an iterable: keep the current
value unless the new one is strictly smaller. -/
def ratMin (r y : Rat) : Rat := if y < r then y else r

/-- One comparison step of Python `max` over an iterable: keep the current
value unless the new one is strictly larger. -/
def ratMax (r y : Rat) : Rat := if r < y then y else r

/-- Python `min` of a list; the callers below only apply it to nonempty
lists (Python raises on an empty one). -/
def pymin : List Rat → Rat
  | [] => 0
  | x :: xs => xs.foldl ratMin x

/-- Python `max` of a list; the callers below only apply it to nonempty
lists (Python raises on an empty one). -/
def pymax : List Rat → Rat
  | [] => 0
  | x :: xs => xs.foldl ratMax x

/-- The final emission loop of `_extract_temperatures` (pdf_parser.py lines
331-358): for each location with at least one min and one max, extend the
result with the absolute-minimum and absolute-maximum samples. -/
def emit_samples : List (String × List Rat × List Rat) → Nat → List TempSample
  | [], _ => []
  | (location_name, mins, maxs) :: rest, now =>
    (if mins ≠ [] ∧ maxs ≠ [] then
      [{ value := pymin mins, unit := "C", type := "minimum", location := location_name,
         context := "Daily minimum from " ++ toString mins.length ++ " readings",
         timestamp := now, reading_count := mins.length },
       { value := pymax maxs, unit := "C", type := "maximum", location := location_name,
         context := "Daily maximum from " ++ toString maxs.length ++ " readings",
         timestamp := now, reading_count := maxs.length }]
    else []) ++ emit_samples rest now

/-- The line-scanning loop of `_extract_temperatures`. -/
def scan_recordings (lines : List String) : List (String × List Rat × List Rat) :=
  ((List.range lines.length).foldl (fun st i => tempStep lines i st)
    { current_location := none, in_recordings_section := false,
      location_temperatures := [] }).location_temperatures

/-- Model of `PDFTemperatureParser._extract_temperatures` (pdf_parser.py
lines 241-361). The `locations` argument is unused in the source as well;
`now` models the `datetime.now()` calls at lines 346 and 355. -/
def _extract_temperatures (text_content : String) (locations : List LocationBlock)
    (now : Nat) : List TempSample :=
  let _ := locations
  emit_samples (scan_recordings (pySplitLines text_content)) now

/-- One per-location entry of the daily summary (pdf_parser.py lines
389-394). -/
structure LocationSummary where
  location : String
  min_temp : Rat
  max_temp : Rat
  readings_count : Nat
deriving DecidableEq

/-- The daily summary dict (pdf_parser.py lines 381-385). -/
structure DailySummary where
  date : Nat
  source : String
  locations : List LocationSummary
deriving DecidableEq

/-- One iteration of the grouping loop of `_create_daily_summary`
(pdf_parser.py lines 370-378). -/
def groupStep (m : List (String × List Rat × List Rat)) (t : TempSample) :
    List (String × List Rat × List Rat) :=
  let m1 := if (lookupKey m t.location).isNone then setKey m t.location ([], []) else m
  if t.type = "minimum" then updKey m1 t.location (fun ml => (ml.1 ++ [t.value], ml.2))
  else if t.type = "maximum" then updKey m1 t.location (fun ml => (ml.1, ml.2 ++ [t.value]))
  else m1

/-- Model of `_create_daily_summary` (pdf_parser.py lines 363-397); `now`
models `datetime.now().date()`. -/
def _create_daily_summary (temperatures : List TempSample) (filename : String) (now : Nat) :
    Option DailySummary :=
  if temperatures = [] then none
  else
    let by_location := temperatures.foldl groupStep []
    let locs := by_location.foldl (fun acc e =>
      if e.2.1 ≠ [] ∧ e.2.2 ≠ [] then
        acc ++ [{ location := e.1, min_temp := pymin e.2.1, max_temp := pymax e.2.2,
                  readings_count := e.2.1.length }]
      else acc) ([] : List LocationSummary)
    if locs ≠ [] then some { date := now, source := filename, locations := locs } else none

/-- The result dict of `parse_pdf_data` (pdf_parser.py lines 61-68 and
399-409); the success path carries no error key, modelled as `none`. -/
structure ParseResult where
  locations : List LocationBlock
  temperatures : List TempSample
  daily_summary : Option DailySummary
  source : String
  text_length : Nat
  success : Bool
  error : Option String
deriving DecidableEq

/-- Model of `PDFTemperatureParser._empty_result`. -/
def _empty_result (error : Option String) : ParseResult :=
  { locations := [], temperatures := [], daily_summary := none, source := "unknown",
    text_length := 0, success := false, error := error }

/-- Model of `PDFTemperatureParser.parse_pdf_data` (pdf_parser.py lines
37-75). The PDF-byte-to-text backend is an external collaborator; its
outcome is the `extracted` argument, with `Except.error` modelling the
exception caught at line 73. The Python body is wrapped in try/except and
every branch returns a result dict, so the model is a total function and no
exception reaches the caller. -/
def parse_pdf_data (extracted : Except String String) (filename : String) (now : Nat) :
    ParseResult :=
  match extracted with
  | .error e => _empty_result (some e)
  | .ok text_content =>
    if pyStrip text_content = "" then _empty_result none
    else
      let locations := _extract_locations text_content
      let temperatures := _extract_temperatures text_content locations now
      { locations := locations,
        temperatures := temperatures,
        daily_summary := _create_daily_summary temperatures filename now,
        source := filename,
        text_length := pyLen text_content,
        success := true,
        error := none }

/-- The dataclass `LocationInfo` of location_manager.py lines 22-38;
`first_seen` and `last_seen` ISO timestamps are modelled by their clock
values. -/
structure LocationInfo where
  name : String
  confidence : String
  configured : Bool
  location_type : String
  min_temp : Option Rat
  max_temp : Option Rat
  first_seen : Nat
  last_seen : Nat
  source_count : Nat
deriving DecidableEq

/-- The discovered-location dict passed to `register_discovered_location`
(keys `name`, `confidence`, `type`, `min_temp`, `max_temp`; `type` read with
`.get('type', 'custom')`). -/
structure ObservedLocation where
  name : String
  confidence : String
  location_type : Option String
  min_temp : Option Rat
  max_temp : Option Rat
deriving DecidableEq

/-- The `confidence_priority` table with its `.get(x, 0)` default. -/
def confidence_priority : String → Nat
  | "high" => 3
  | "medium" => 2
  | "low" => 1
  | _ => 0

/-- The `self.discovered_locations` dict of `LocationManager`. -/
abbrev Registry := List (String × LocationInfo)

/-- Model of `LocationManager.register_discovered_location`
(location_manager.py lines 503-533), the spec's `observe`; `now` models
`datetime.now().isoformat()`. The Python method mutates the registry and
returns the name, so the model returns the name with the new registry. -/
def register_discovered_location (st : Registry) (location_info : ObservedLocation)
    (now : Nat) : String × Registry :=
  match lookupKey st location_info.name with
  | some existing =>
    let conf :=
      if confidence_priority existing.confidence < confidence_priority location_info.confidence
      then location_info.confidence else existing.confidence
    (location_info.name,
      setKey st location_info.name
        { existing with last_seen := now, source_count := existing.source_count + 1,
                        confidence := conf })
  | none =>
    (location_info.name,
      st ++ [(location_info.name,
        { name := location_info.name, confidence := location_info.confidence,
          configured := false, location_type := location_info.location_type.getD "custom",
          min_temp := location_info.min_temp, max_temp := location_info.max_temp,
          first_seen := now, last_seen := now, source_count := 1 })])

/-- Model of `LocationManager.merge_locations_by_user_choice`
(location_manager.py lines 535-556): returns the success flag with the new
registry. The source entry's fields are read before the target entry is
replaced, which also reproduces the Python aliasing when both keys denote
the same entry. -/
def merge_locations_by_user_choice (st : Registry) (source_key target_key : String) :
    Bool × Registry :=
  match lookupKey st source_key, lookupKey st target_key with
  | some source_location, some target_location =>
    let conf :=
      if confidence_priority target_location.confidence <
         confidence_priority source_location.confidence
      then source_location.confidence else target_location.confidence
    let merged :=
      { target_location with
        source_count := target_location.source_count + source_location.source_count,
        last_seen := max source_location.last_seen target_location.last_seen,
        confidence := conf }
    (true, eraseKey (setKey st target_key merged) source_key)
  | _, _ => (false, st)

/-- One entry of the `get_unconfigured_locations` result list
(location_manager.py lines 675-683). -/
structure UnconfiguredEntry where
  key : String
  name : String
  confidence : String
  location_type : String
  min_temp : Option Rat
  max_temp : Option Rat
  source_count : Nat
deriving DecidableEq

/-- Descending lexicographic comparison on the Python sort key
`(confidence a priori, source_count)`. -/
def keyGe (a b : Nat × Nat) : Bool :=
  decide (b.1 < a.1 ∨ (a.1 = b.1 ∧ b.2 ≤ a.2))

/-- Insertion step of a stable descending insertion sort. -/
def insertDesc (key : UnconfiguredEntry → Nat × Nat) (x : UnconfiguredEntry) :
    List UnconfiguredEntry → List UnconfiguredEntry
  | [] => [x]
  | y :: ys => if keyGe (key x) (key y) then x :: y :: ys else y :: insertDesc key x ys

/-- Stable descending sort, as Python `list.sort(key=..., reverse=True)`. -/
def sortDesc (key : UnconfiguredEntry → Nat × Nat) :
    List UnconfiguredEntry → List UnconfiguredEntry
  | [] => []
  | x :: xs => insertDesc key x (sortDesc key xs)

/-- The filtering loop of `get_unconfigured_locations` (location_manager.py
lines 672-683). -/
def unconfFilter : Registry → List UnconfiguredEntry
  | [] => []
  | (k, loc) :: t =>
    if loc.configured then unconfFilter t
    else
      { key := k, name := loc.name, confidence := loc.confidence,
        location_type := loc.location_type, min_temp := loc.min_temp,
        max_temp := loc.max_temp, source_count := loc.source_count } :: unconfFilter t

/-- Model of `LocationManager.get_unconfigured_locations`
(location_manager.py lines 670-691). The Python sort key indexes the
priority dict directly and would raise `KeyError` on a confidence string
outside the table; the model extends the table with priority 0. The
theorems below only use sort-order-independent consequences. -/
def get_unconfigured_locations (st : Registry) : List UnconfiguredEntry :=
  sortDesc (fun u => (confidence_priority u.confidence, u.source_count)) (unconfFilter st)

/-- Model of `LocationManager.determine_clever_logger_location_type`
(location_manager.py lines 189-210). -/
def determine_clever_logger_location_type (location_name : String)
    (description : String) : String :=
  let combined := pyStrip (pyLower location_name ++ " " ++ pyLower description)
  if ["fridge", "refrigerator", "vaccine", "medicine", "drug"].any
      (fun t => strContains combined t) then
    if ["vaccine", "immunization"].any (fun t => strContains combined t) then "vaccine"
    else "fridge"
  else if ["freezer", "frozen"].any (fun t => strContains combined t) then "freezer"
  else if ["room", "dispensary", "pharmacy", "office", "storage"].any
      (fun t => strContains combined t) then "room"
  else "custom"

/-- Model of `LocationManager.determine_location_type` (location_manager.py
lines 311-337), the fallback-path classifier. -/
def determine_location_type (line : String) (location_name : String) : String :=
  let line_lower := pyLower line
  let name_lower := pyLower location_name
  let has := fun (ts : List String) =>
    ts.any (fun t => strContains line_lower t || strContains name_lower t)
  if has ["fridge", "refrigerator"] then
    if has ["vaccine", "insulin"] then "vaccine" else "fridge"
  else if has ["freezer"] then "freezer"
  else if has ["room", "area", "zone"] then "room"
  else if has ["vaccine"] then "vaccine"
  else if has ["insulin"] then "insulin"
  else if has ["controlled", "schedule"] then "controlled"
  else "custom"

theorem lookupKey_setKey_self {α : Type} (l : List (String × α)) (k : String) (v : α) :
    lookupKey (setKey l k v) k = some v := by
  induction l with
  | nil => simp [setKey, lookupKey]
  | cons p t ih =>
    obtain ⟨k0, v0⟩ := p
    by_cases h : k0 = k
    · simp [setKey, h, lookupKey]
    · simp [setKey, h, lookupKey, ih]

theorem lookupKey_setKey_ne {α : Type} (l : List (String × α)) {k k2 : String} (v : α)
    (h : k2 ≠ k) : lookupKey (setKey l k v) k2 = lookupKey l k2 := by
  have h2 : k ≠ k2 := fun he => h he.symm
  induction l with
  | nil => simp [setKey, lookupKey, h2]
  | cons p t ih =>
    obtain ⟨k0, v0⟩ := p
    by_cases hk : k0 = k
    · subst hk
      simp [setKey, lookupKey, h2]
    · simp [setKey, lookupKey, hk, ih]

theorem lookupKey_append_some {α : Type} {l : List (String × α)} {k : String} {e : α}
    (h : lookupKey l k = some e) (l2 : List (String × α)) :
    lookupKey (l ++ l2) k = some e := by
  induction l with
  | nil => exact absurd h (by simp [lookupKey])
  | cons p t ih =>
    obtain ⟨k0, v0⟩ := p
    unfold lookupKey at h
    by_cases hk : k0 = k
    · simp only [hk, if_true] at h
      simp [lookupKey, hk, h]
    · simp only [hk, if_false] at h
      simp [lookupKey, hk, ih h]

theorem lookupKey_eraseKey_ne {α : Type} (l : List (String × α)) {k k2 : String}
    (h : k2 ≠ k) : lookupKey (eraseKey l k) k2 = lookupKey l k2 := by
  have h2 : k ≠ k2 := fun he => h he.symm
  induction l with
  | nil => rfl
  | cons p t ih =>
    obtain ⟨k0, v0⟩ := p
    by_cases hk : k0 = k
    · subst hk
      simp [eraseKey, lookupKey, h2]
    · simp [eraseKey, lookupKey, hk, ih]

theorem lookupKey_eq_none_of_not_mem_keys {α : Type} {l : List (String × α)} {k : String}
    (h : k ∉ l.map Prod.fst) : lookupKey l k = none := by
  induction l with
  | nil => rfl
  | cons p t ih =>
    obtain ⟨k0, v0⟩ := p
    simp only [List.map_cons, List.mem_cons] at h
    push_neg at h
    have h1 : k0 ≠ k := fun he => h.1 he.symm
    simp [lookupKey, h1, ih h.2]

theorem lookupKey_eraseKey_self {α : Type} {l : List (String × α)}
    (h : (l.map Prod.fst).Nodup) (k : String) : lookupKey (eraseKey l k) k = none := by
  induction l with
  | nil => rfl
  | cons p t ih =>
    obtain ⟨k0, v0⟩ := p
    simp only [List.map_cons, List.nodup_cons] at h
    by_cases hk : k0 = k
    · subst hk
      simp only [eraseKey, if_true]
      exact lookupKey_eq_none_of_not_mem_keys h.1
    · simp [eraseKey, hk, lookupKey, ih h.2]

theorem lookupKey_none_not_mem {α : Type} {l : List (String × α)} {k : String}
    (h : lookupKey l k = none) : ∀ v, (k, v) ∉ l := by
  induction l with
  | nil => simp
  | cons p t ih =>
    obtain ⟨k0, v0⟩ := p
    unfold lookupKey at h
    by_cases hk : k0 = k
    · simp [hk] at h
    · simp only [hk, if_false] at h
      intro v hv
      rcases List.mem_cons.mp hv with he | hm
      · exact hk (congrArg Prod.fst he).symm
      · exact ih h v hm

theorem lookupKey_some_mem {α : Type} {l : List (String × α)} {k : String} {v : α}
    (h : lookupKey l k = some v) : (k, v) ∈ l := by
  induction l with
  | nil => exact absurd h (by simp [lookupKey])
  | cons p t ih =>
    obtain ⟨k0, v0⟩ := p
    unfold lookupKey at h
    by_cases hk : k0 = k
    · simp only [hk, if_true] at h
      injection h with h1
      subst hk h1
      exact List.mem_cons_self _ _
    · simp only [hk, if_false] at h
      exact List.mem_cons_of_mem _ (ih h)

theorem keys_setKey_present {α : Type} {l : List (String × α)} {k : String} {e : α}
    (h : lookupKey l k = some e) (v : α) :
    (setKey l k v).map Prod.fst = l.map Prod.fst := by
  induction l with
  | nil => exact absurd h (by simp [lookupKey])
  | cons p t ih =>
    obtain ⟨k0, v0⟩ := p
    unfold lookupKey at h
    by_cases hk : k0 = k
    · simp [setKey, hk]
    · simp only [hk, if_false] at h
      simp [setKey, hk, ih h]

theorem mem_setKey {α : Type} {l : List (String × α)} {k : String} {v : α}
    {e : String × α} (h : e ∈ setKey l k v) : e ∈ l ∨ e = (k, v) := by
  induction l with
  | nil => simpa [setKey] using h
  | cons p t ih =>
    obtain ⟨k0, v0⟩ := p
    by_cases hk : k0 = k
    · simp only [setKey, hk, if_true] at h
      rcases List.mem_cons.mp h with he | hm
      · exact Or.inr he
      · exact Or.inl (List.mem_cons_of_mem _ hm)
    · simp only [setKey, hk, if_false] at h
      rcases List.mem_cons.mp h with he | hm
      · exact Or.inl (he ▸ List.mem_cons_self _ _)
      · rcases ih hm with h1 | h1
        · exact Or.inl (List.mem_cons_of_mem _ h1)
        · exact Or.inr h1

theorem mem_updKey {α : Type} {l : List (String × α)} {k : String} {f : α → α}
    {e : String × α} (h : e ∈ updKey l k f) :
    e ∈ l ∨ ∃ w, (k, w) ∈ l ∧ e = (k, f w) := by
  induction l with
  | nil =>
    simp [updKey] at h
  | cons p t ih =>
    obtain ⟨k0, v0⟩ := p
    by_cases hk : k0 = k
    · subst hk
      simp only [updKey, if_true] at h
      rcases List.mem_cons.mp h with he | hm
      · exact Or.inr ⟨v0, List.mem_cons_self _ _, he⟩
      · exact Or.inl (List.mem_cons_of_mem _ hm)
    · simp only [updKey, hk, if_false] at h
      rcases List.mem_cons.mp h with he | hm
      · exact Or.inl (he ▸ List.mem_cons_self _ _)
      · rcases ih hm with h1 | ⟨w, hw1, hw2⟩
        · exact Or.inl (List.mem_cons_of_mem _ h1)
        · exact Or.inr ⟨w, List.mem_cons_of_mem _ hw1, hw2⟩

theorem ratMin_choice (r y : Rat) : ratMin r y = r ∨ ratMin r y = y := by
  unfold ratMin
  split
  · exact Or.inr rfl
  · exact Or.inl rfl

theorem ratMax_choice (r y : Rat) : ratMax r y = r ∨ ratMax r y = y := by
  unfold ratMax
  split
  · exact Or.inr rfl
  · exact Or.inl rfl

theorem foldl_min_mem (xs : List Rat) : ∀ x : Rat, xs.foldl ratMin x ∈ x :: xs := by
  induction xs with
  | nil => intro x; simp
  | cons y ys ih =>
    intro x
    have h := ih (ratMin x y)
    simp only [List.foldl_cons]
    rcases List.mem_cons.mp h with h1 | h1
    · rcases ratMin_choice x y with hm | hm
      · rw [h1, hm]
        exact List.mem_cons_self _ _
      · rw [h1, hm]
        exact List.mem_cons_of_mem _ (List.mem_cons_self _ _)
    · exact List.mem_cons_of_mem _ (List.mem_cons_of_mem _ h1)

theorem foldl_max_mem (xs : List Rat) : ∀ x : Rat, xs.foldl ratMax x ∈ x :: xs := by
  induction xs with
  | nil => intro x; simp
  | cons y ys ih =>
    intro x
    have h := ih (ratMax x y)
    simp only [List.foldl_cons]
    rcases List.mem_cons.mp h with h1 | h1
    · rcases ratMax_choice x y with hm | hm
      · rw [h1, hm]
        exact List.mem_cons_self _ _
      · rw [h1, hm]
        exact List.mem_cons_of_mem _ (List.mem_cons_self _ _)
    · exact List.mem_cons_of_mem _ (List.mem_cons_of_mem _ h1)

theorem pymin_mem (x : Rat) (xs : List Rat) : pymin (x :: xs) ∈ x :: xs :=
  foldl_min_mem xs x

theorem pymax_mem (x : Rat) (xs : List Rat) : pymax (x :: xs) ∈ x :: xs :=
  foldl_max_mem xs x

/-- The recordings lines of the specification's worked example, under one
location header. -/
def c1_text : String :=
  "Location Details\nName Fridge\nRecordings\n4.0°C 4.8°C\n3.9°C 5.0°C\n-60°C 5.0°C"

/-- Claim C1: for the line sequence whose Recordings region holds exactly
the pairs (4.0, 4.8), (3.9, 5.0), (-60, 5.0), temperature extraction emits
exactly a minimum sample 3.9 with reading count 2 and a maximum sample 5.0
with reading count 2; the (-60, 5.0) line matches no recordings pair at
all, so it reaches neither the min list nor the max list. -/
theorem claim_C1 : ∀ now : Nat,
    _extract_temperatures c1_text [] now =
      [{ value := mkRat 39 10, unit := "C", type := "minimum", location := "Fridge",
         context := "Daily minimum from 2 readings", timestamp := now, reading_count := 2 },
       { value := 5, unit := "C", type := "maximum", location := "Fridge",
         context := "Daily maximum from 2 readings", timestamp := now, reading_count := 2 }] ∧
    findPairs ("-60°C 5.0°C").data = [] := by
  intro now
  exact ⟨rfl, rfl⟩

/-- The header block of the specification's name-field next-line example. -/
def c2_text : String := "Location Details\nName\nDescription\nDispensary\nTemperature"

/-- Claim C2: whenever the line after a bare Name line is the field label
Description, the block parser's name lookahead stops there and yields
nothing, whatever follows; on the concrete block the name stays unresolved and no
location block is emitted. -/
theorem claim_C2 :
    (∀ (lines : List String) (i : Nat),
        pyStrip (lines.getD (i + 1) "") = "Description" →
        nameLookahead lines (List.range' (i + 1) (min (i + 3) lines.length - (i + 1))) =
          none) ∧
    _extract_locations c2_text = [] := by
  constructor
  · intro lines i h
    by_cases hlt : i + 1 < lines.length
    · have hn : min (i + 3) lines.length - (i + 1) =
          (min (i + 3) lines.length - (i + 2)) + 1 := by omega
      rw [hn, List.range'_succ]
      simp only [nameLookahead]
      rw [h]
      rw [if_neg (by decide), if_pos (by decide)]
    · have h0 : min (i + 3) lines.length - (i + 1) = 0 := by omega
      rw [h0]
      rfl
  · rfl

/-- Witness for C2 at a concrete two-line input. -/
theorem claim_C2_witness :
    nameLookahead ["Name", "Description"] (List.range' 1 (min 3 2 - 1)) = none :=
  claim_C2.1 ["Name", "Description"] 0 (by decide)

/-- The header block of the specification's name-field same-line example. -/
def c3_text : String := "Location Details\nName Dispensary\nTemperature"

/-- The location block the executing `_extract_locations` emits for
`c3_text`. -/
def c3_block : LocationBlock :=
  { name := "Dispensary", raw_name := "Dispensary", description := "",
    device_sn := none, device_model := none, log_interval := none,
    min_temp_threshold := none, max_temp_threshold := none }

/-- Claim C3: on the line `Name Dispensary` inside a fresh header block, one
step of the block parser resolves the name to `Dispensary` from that same
line, with a result that does not depend on the surrounding line list or
position (no lookahead); the concrete block is emitted once its
`Temperature` terminator is reached. -/
theorem claim_C3 :
    (∀ (lines : List String) (i : Nat) (acc : List LocationBlock),
        locLineStep lines i "Name Dispensary" (some {}, acc) =
          (some { name := some "Dispensary" }, acc)) ∧
    _extract_locations c3_text = [c3_block] := by
  exact ⟨fun lines i acc => rfl, rfl⟩

/-- Claim C9: the two same-named `_extract_locations` definitions are not
extensionally equal. The first (shadowed) definition returns the empty list
on every input, while the executing (second) definition returns a nonempty
block list on a well-formed header/Name/terminator block. -/
theorem claim_C9 :
    (∀ text_content : String, _extract_locations_v1 text_content = []) ∧
    _extract_locations_v1 c3_text = [] ∧
    _extract_locations c3_text ≠ [] := by
  refine ⟨?_, ?_, by decide⟩
  · intro t
    show ((pySplitLines t).foldl
        (fun locations line => if pyStrip line = "Location Details" then locations else locations)
        []) = []
    generalize pySplitLines t = l
    induction l with
    | nil => rfl
    | cons x xs ih =>
      rw [List.foldl_cons, ite_self]
      exact ih
  · rfl

/-- Claim C7: extraction failure yields the empty result carrying the error
string; extracted-but-blank text yields the empty result with no error; and
whenever the parse is unsuccessful the locations and temperatures lists are
empty. The model of `parse_pdf_data` is a total function (the Python body
is fully wrapped in try/except), so no exception reaches the caller. -/
theorem claim_C7 :
    (∀ (e filename : String) (now : Nat),
        parse_pdf_data (.error e) filename now = _empty_result (some e)) ∧
    (∀ (text filename : String) (now : Nat), pyStrip text = "" →
        parse_pdf_data (.ok text) filename now = _empty_result none) ∧
    (∀ (x : Except String String) (filename : String) (now : Nat),
        (parse_pdf_data x filename now).success = false →
        (parse_pdf_data x filename now).locations = [] ∧
        (parse_pdf_data x filename now).temperatures = []) := by
  refine ⟨fun e fn now => rfl, fun t fn now h => by simp [parse_pdf_data, h], ?_⟩
  intro x fn now h
  cases x with
  | error e => exact ⟨rfl, rfl⟩
  | ok text =>
    by_cases ht : pyStrip text = ""
    · simp [parse_pdf_data, ht, _empty_result]
    · exact absurd h (by simp [parse_pdf_data, ht])

/-- Witness for C7 at a concrete whitespace-only extraction result. -/
theorem claim_C7_witness :
    parse_pdf_data (.ok "   ") "report.pdf" 0 = _empty_result none :=
  claim_C7.2.1 "   " "report.pdf" 0 (by decide)

/-- A parse input for the determinism claim: one location with one valid
recordings pair. -/
def c4_text : String := "Location Details\nName Fridge\nRecordings\n4.0°C 4.8°C"

/-- Counterexample to claim C4 as stated: the same bytes parsed at two
different wall-clock instants give temperature lists that differ (in their
`timestamp` fields), so the `temperatures` output is not identical across
the two runs. -/
theorem claim_C4_cex :
    (parse_pdf_data (.ok c4_text) "report.pdf" 0).temperatures ≠
      (parse_pdf_data (.ok c4_text) "report.pdf" 1).temperatures := by
  decide

/-- Forgetting the wall-clock field of a temperature sample. -/
def eraseTimestamp (s : TempSample) : TempSample := { s with timestamp := 0 }

theorem emit_samples_map_erase (lt : List (String × List Rat × List Rat)) (a b : Nat) :
    (emit_samples lt a).map eraseTimestamp = (emit_samples lt b).map eraseTimestamp := by
  induction lt with
  | nil => rfl
  | cons e rest ih =>
    obtain ⟨nm, mins, maxs⟩ := e
    unfold emit_samples
    by_cases h : mins ≠ [] ∧ maxs ≠ []
    · simp only [if_pos h, List.map_append, List.map_cons, List.map_nil, ih]
      rfl
    · simp only [if_neg h, List.nil_append]
      exact ih

/-- Claim C4, amended: the `locations` output depends only on the input
bytes; the `temperatures` output depends only on the input bytes except for
the `timestamp` field of each sample, which records the wall clock at
emission time. -/
theorem claim_C4 :
    ∀ (extracted : Except String String) (filename : String) (t1 t2 : Nat),
      (parse_pdf_data extracted filename t1).locations =
        (parse_pdf_data extracted filename t2).locations ∧
      (parse_pdf_data extracted filename t1).temperatures.map eraseTimestamp =
        (parse_pdf_data extracted filename t2).temperatures.map eraseTimestamp := by
  intro x fn t1 t2
  cases x with
  | error e => exact ⟨rfl, rfl⟩
  | ok text =>
    by_cases h : pyStrip text = ""
    · constructor <;> simp [parse_pdf_data, h]
    · constructor
      · simp [parse_pdf_data, h]
      · simp only [parse_pdf_data, if_neg h]
        show (_extract_temperatures text (_extract_locations text) t1).map eraseTimestamp =
          (_extract_temperatures text (_extract_locations text) t2).map eraseTimestamp
        unfold _extract_temperatures
        exact emit_samples_map_erase _ t1 t2

/-- Counterexample to claim C8 as stated: `Insulin Fridge` contains an
insulin term and a generic fridge term, yet the Clever Logger classifier
returns the generic `fridge` type, not an insulin-specific one. -/
theorem claim_C8_cex :
    strContains (pyStrip (pyLower "Insulin Fridge" ++ " " ++ pyLower "")) "insulin" = true ∧
    strContains (pyStrip (pyLower "Insulin Fridge" ++ " " ++ pyLower "")) "fridge" = true ∧
    determine_clever_logger_location_type "Insulin Fridge" "" = "fridge" := by
  exact ⟨rfl, rfl, rfl⟩

/-- Claim C8, amended: in the Clever Logger classifier, a vaccine term
always wins (even alongside generic fridge terms), but an insulin term does
not outrank fridge — insulin with fridge yields the generic `fridge` type.
In the fallback classifier, a vaccine or insulin term together with a
fridge term yields `vaccine` rather than `fridge`. -/
theorem claim_C8 :
    (∀ (location_name description : String),
        strContains (pyStrip (pyLower location_name ++ " " ++ pyLower description))
          "vaccine" = true →
        determine_clever_logger_location_type location_name description = "vaccine") ∧
    (∀ (location_name description : String),
        strContains (pyStrip (pyLower location_name ++ " " ++ pyLower description))
          "insulin" = true →
        strContains (pyStrip (pyLower location_name ++ " " ++ pyLower description))
          "fridge" = true →
        strContains (pyStrip (pyLower location_name ++ " " ++ pyLower description))
          "vaccine" = false →
        strContains (pyStrip (pyLower location_name ++ " " ++ pyLower description))
          "immunization" = false →
        determine_clever_logger_location_type location_name description = "fridge") ∧
    (∀ (line location_name : String),
        (strContains (pyLower line) "fridge" = true ∨
          strContains (pyLower location_name) "fridge" = true) →
        (strContains (pyLower line) "vaccine" = true ∨
          strContains (pyLower location_name) "vaccine" = true ∨
          strContains (pyLower line) "insulin" = true ∨
          strContains (pyLower location_name) "insulin" = true) →
        determine_location_type line location_name = "vaccine") := by
  refine ⟨?_, ?_, ?_⟩
  · intro n d h
    simp [determine_clever_logger_location_type, h]
  · intro n d h1 h2 h3 h4
    simp [determine_clever_logger_location_type, h1, h2, h3, h4]
  · intro l n h1 h2
    rcases h1 with h1 | h1 <;> rcases h2 with h2 | h2 | h2 | h2 <;>
      simp [determine_location_type, h1, h2]

/-- Witness for C8 at concrete inputs with both an insulin and a fridge
term. -/
theorem claim_C8_witness :
    determine_location_type "insulin fridge unit" "" = "vaccine" :=
  claim_C8.2.2 "insulin fridge unit" "" (Or.inl (by decide)) (Or.inr (Or.inr (Or.inl (by decide))))

theorem register_eq_existing {st : Registry} {o : ObservedLocation} {ex : LocationInfo}
    (h : lookupKey st o.name = some ex) (now : Nat) :
    (register_discovered_location st o now).2 =
      setKey st o.name
        { ex with last_seen := now, source_count := ex.source_count + 1,
                  confidence :=
                    if confidence_priority ex.confidence < confidence_priority o.confidence
                    then o.confidence else ex.confidence } := by
  unfold register_discovered_location
  rw [h]

theorem register_eq_new {st : Registry} {o : ObservedLocation}
    (h : lookupKey st o.name = none) (now : Nat) :
    (register_discovered_location st o now).2 =
      st ++ [(o.name,
        { name := o.name, confidence := o.confidence, configured := false,
          location_type := o.location_type.getD "custom", min_temp := o.min_temp,
          max_temp := o.max_temp, first_seen := now, last_seen := now,
          source_count := 1 })] := by
  unfold register_discovered_location
  rw [h]

theorem register_mono {st : Registry} {key : String} {e : LocationInfo}
    (h : lookupKey st key = some e) (o : ObservedLocation) (now : Nat) :
    ∃ e2, lookupKey (register_discovered_location st o now).2 key = some e2 ∧
      confidence_priority e.confidence ≤ confidence_priority e2.confidence ∧
      e2.configured = e.configured := by
  cases ho : lookupKey st o.name with
  | some ex =>
    rw [register_eq_existing ho now]
    by_cases hk : key = o.name
    · subst hk
      rw [h] at ho
      injection ho with ho
      subst ho
      refine ⟨_, lookupKey_setKey_self _ _ _, ?_, rfl⟩
      dsimp only
      split
      · rename_i hlt
        exact le_of_lt hlt
      · exact le_refl _
    · rw [lookupKey_setKey_ne st _ hk]
      exact ⟨e, h, le_refl _, rfl⟩
  | none =>
    rw [register_eq_new ho now]
    exact ⟨e, lookupKey_append_some h _, le_refl _, rfl⟩

/-- Claim C5: over any sequence of automatic observations, an existing
entry's confidence priority never decreases and its configured flag is
untouched; and one re-observation of an existing key bumps the source count
by one, refreshes the last-seen clock, and upgrades the confidence only
when the new one outranks the old. -/
theorem claim_C5 :
    (∀ (st : Registry) (obs : List (ObservedLocation × Nat)) (key : String)
        (e : LocationInfo),
        lookupKey st key = some e →
        ∃ e2,
          lookupKey
            (obs.foldl (fun s ob => (register_discovered_location s ob.1 ob.2).2) st) key =
            some e2 ∧
          confidence_priority e.confidence ≤ confidence_priority e2.confidence ∧
          e2.configured = e.configured) ∧
    (∀ (st : Registry) (o : ObservedLocation) (now : Nat) (e : LocationInfo),
        lookupKey st o.name = some e →
        lookupKey (register_discovered_location st o now).2 o.name =
          some { e with last_seen := now, source_count := e.source_count + 1,
                        confidence :=
                          if confidence_priority e.confidence <
                              confidence_priority o.confidence
                          then o.confidence else e.confidence }) := by
  constructor
  · intro st obs
    induction obs generalizing st with
    | nil => exact fun key e h => ⟨e, h, le_refl _, rfl⟩
    | cons ob rest ih =>
      intro key e h
      obtain ⟨e1, h1, hp1, hc1⟩ := register_mono h ob.1 ob.2
      obtain ⟨e2, h2, hp2, hc2⟩ := ih _ key e1 h1
      exact ⟨e2, h2, le_trans hp1 hp2, by rw [hc2, hc1]⟩
  · intro st o now e h
    rw [register_eq_existing h now]
    exact lookupKey_setKey_self _ _ _

/-- An existing medium-confidence registry entry. -/
def c5_entry : LocationInfo :=
  { name := "Fridge A", confidence := "medium", configured := false,
    location_type := "fridge", min_temp := none, max_temp := none,
    first_seen := 3, last_seen := 3, source_count := 1 }

/-- A registry holding only `c5_entry`. -/
def c5_state : Registry := [("Fridge A", c5_entry)]

/-- A later low-confidence observation of the same location. -/
def c5_low : ObservedLocation :=
  { name := "Fridge A", confidence := "low", location_type := some "fridge",
    min_temp := none, max_temp := none }

/-- Witness for C5: observing an existing medium-confidence entry with a
low-confidence observation leaves the confidence at medium while bumping
the source count and last-seen clock. -/
theorem claim_C5_witness :
    lookupKey (register_discovered_location c5_state c5_low 9).2 "Fridge A" =
      some { c5_entry with last_seen := 9, source_count := 2, confidence := "medium" } :=
  claim_C5.2 c5_state c5_low 9 c5_entry (by decide)

theorem mem_insertDesc {key : UnconfiguredEntry → Nat × Nat} {x y : UnconfiguredEntry}
    {l : List UnconfiguredEntry} :
    y ∈ insertDesc key x l ↔ y = x ∨ y ∈ l := by
  induction l with
  | nil => simp [insertDesc]
  | cons z zs ih =>
    unfold insertDesc
    split
    · simp [List.mem_cons]
    · simp only [List.mem_cons, ih]
      tauto

theorem mem_sortDesc {key : UnconfiguredEntry → Nat × Nat} {l : List UnconfiguredEntry}
    {y : UnconfiguredEntry} : y ∈ sortDesc key l ↔ y ∈ l := by
  induction l with
  | nil => simp [sortDesc]
  | cons x xs ih => simp [sortDesc, mem_insertDesc, ih]

theorem unconfFilter_key_mem {st : Registry} {u : UnconfiguredEntry}
    (h : u ∈ unconfFilter st) : ∃ loc, (u.key, loc) ∈ st := by
  induction st with
  | nil => simp [unconfFilter] at h
  | cons p t ih =>
    obtain ⟨k0, loc0⟩ := p
    unfold unconfFilter at h
    by_cases hc : loc0.configured
    · rw [if_pos hc] at h
      obtain ⟨loc, hm⟩ := ih h
      exact ⟨loc, List.mem_cons_of_mem _ hm⟩
    · rw [if_neg hc] at h
      rcases List.mem_cons.mp h with he | hm
      · subst he
        exact ⟨loc0, List.mem_cons_self _ _⟩
      · obtain ⟨loc, hm2⟩ := ih hm
        exact ⟨loc, List.mem_cons_of_mem _ hm2⟩

theorem unconfFilter_of_mem {st : Registry} {k : String} {loc : LocationInfo}
    (hm : (k, loc) ∈ st) (hc : loc.configured = false) :
    ({ key := k, name := loc.name, confidence := loc.confidence,
       location_type := loc.location_type, min_temp := loc.min_temp,
       max_temp := loc.max_temp, source_count := loc.source_count } : UnconfiguredEntry) ∈
      unconfFilter st := by
  induction st with
  | nil => simp at hm
  | cons p t ih =>
    obtain ⟨k0, loc0⟩ := p
    unfold unconfFilter
    rcases List.mem_cons.mp hm with he | hmt
    · injection he with h1 h2
      subst h1
      subst h2
      rw [if_neg (by rw [hc]; exact Bool.false_ne_true)]
      exact List.mem_cons_self _ _
    · by_cases hc0 : loc0.configured
      · rw [if_pos hc0]
        exact ih hmt
      · rw [if_neg hc0]
        exact List.mem_cons_of_mem _ (ih hmt)

theorem merge_eq_both {st : Registry} {s t : String} {es et : LocationInfo}
    (hs : lookupKey st s = some es) (ht : lookupKey st t = some et) :
    merge_locations_by_user_choice st s t =
      (true,
        eraseKey
          (setKey st t
            { et with
              source_count := et.source_count + es.source_count,
              last_seen := max es.last_seen et.last_seen,
              confidence :=
                if confidence_priority et.confidence < confidence_priority es.confidence
                then es.confidence else et.confidence }) s) := by
  unfold merge_locations_by_user_choice
  rw [hs, ht]

/-- Claim C6, amended: when both keys exist in a well-formed registry and
are distinct, the operator merge succeeds, deletes the source key, stores
into the target the summed source count, later last-seen and best
confidence, keeps the source out of the unconfigured listing, and (when the
target is unconfigured) lists the target with the combined source count;
when either key is absent the merge returns false and leaves the registry
unchanged. Merging a key into itself deletes the entry (see the
counterexample), which is why distinctness is required. -/
theorem claim_C6 :
    (∀ (st : Registry) (s t : String) (es et : LocationInfo),
        (st.map Prod.fst).Nodup → s ≠ t →
        lookupKey st s = some es → lookupKey st t = some et →
        (merge_locations_by_user_choice st s t).1 = true ∧
        lookupKey (merge_locations_by_user_choice st s t).2 s = none ∧
        lookupKey (merge_locations_by_user_choice st s t).2 t =
          some { et with
                 source_count := et.source_count + es.source_count,
                 last_seen := max es.last_seen et.last_seen,
                 confidence :=
                   if confidence_priority et.confidence < confidence_priority es.confidence
                   then es.confidence else et.confidence } ∧
        (∀ u ∈ get_unconfigured_locations (merge_locations_by_user_choice st s t).2,
            u.key ≠ s) ∧
        (et.configured = false →
          ∃ u ∈ get_unconfigured_locations (merge_locations_by_user_choice st s t).2,
            u.key = t ∧ u.source_count = et.source_count + es.source_count)) ∧
    (∀ (st : Registry) (s t : String),
        lookupKey st s = none ∨ lookupKey st t = none →
        merge_locations_by_user_choice st s t = (false, st)) := by
  constructor
  · intro st s t es et hnd hne hs ht
    have hmerge := merge_eq_both hs ht
    have hkeys := keys_setKey_present ht
    have hnone : lookupKey (merge_locations_by_user_choice st s t).2 s = none := by
      rw [hmerge]
      apply lookupKey_eraseKey_self
      rw [hkeys]
      exact hnd
    have hsome : lookupKey (merge_locations_by_user_choice st s t).2 t =
        some { et with
               source_count := et.source_count + es.source_count,
               last_seen := max es.last_seen et.last_seen,
               confidence :=
                 if confidence_priority et.confidence < confidence_priority es.confidence
                 then es.confidence else et.confidence } := by
      rw [hmerge]
      rw [lookupKey_eraseKey_ne _ (Ne.symm hne)]
      exact lookupKey_setKey_self _ _ _
    refine ⟨by rw [hmerge], hnone, hsome, ?_, ?_⟩
    · intro u hu heq
      simp only [get_unconfigured_locations] at hu
      obtain ⟨loc, hml⟩ := unconfFilter_key_mem (mem_sortDesc.mp hu)
      rw [heq] at hml
      exact lookupKey_none_not_mem hnone loc hml
    · intro hcf
      have hm := lookupKey_some_mem hsome
      have hmem := unconfFilter_of_mem hm hcf
      exact ⟨_, mem_sortDesc.mpr hmem, rfl, rfl⟩
  · intro st s t h
    unfold merge_locations_by_user_choice
    cases hx : lookupKey st s with
    | none =>
      cases hy : lookupKey st t with
      | none => rfl
      | some e2 => rfl
    | some e1 =>
      cases hy : lookupKey st t with
      | none => rfl
      | some e2 =>
        rcases h with h | h
        · rw [hx] at h
          exact absurd h (by simp)
        · rw [hy] at h
          exact absurd h (by simp)

/-- A registry entry used by the C6 counterexample. -/
def c6_entry : LocationInfo :=
  { name := "Fridge A", confidence := "high", configured := false,
    location_type := "fridge", min_temp := none, max_temp := none,
    first_seen := 0, last_seen := 3, source_count := 2 }

/-- Counterexample to claim C6 as stated: merging a key into itself (both
lookups succeed) reports success but deletes the entry outright, so the
target does not carry the combined source count — it is gone. -/
theorem claim_C6_cex :
    (merge_locations_by_user_choice [("Fridge A", c6_entry)] "Fridge A" "Fridge A").1 =
      true ∧
    lookupKey
      (merge_locations_by_user_choice [("Fridge A", c6_entry)] "Fridge A" "Fridge A").2
      "Fridge A" = none := by
  exact ⟨rfl, rfl⟩

/-- The merge source of the C6 witness. -/
def c6_e1 : LocationInfo :=
  { name := "Fridge A1", confidence := "medium", configured := false,
    location_type := "fridge", min_temp := none, max_temp := none,
    first_seen := 1, last_seen := 5, source_count := 2 }

/-- The merge target of the C6 witness. -/
def c6_e2 : LocationInfo :=
  { name := "Fridge A", confidence := "low", configured := false,
    location_type := "fridge", min_temp := none, max_temp := none,
    first_seen := 0, last_seen := 4, source_count := 3 }

/-- A two-entry registry for the C6 witness. -/
def c6_state : Registry := [("Fridge A1", c6_e1), ("Fridge A", c6_e2)]

/-- Witness for C6: after merging `Fridge A1` into `Fridge A`, the source
key no longer resolves. -/
theorem claim_C6_witness :
    lookupKey (merge_locations_by_user_choice c6_state "Fridge A1" "Fridge A").2
      "Fridge A1" = none :=
  (claim_C6.1 c6_state "Fridge A1" "Fridge A" c6_e1 c6_e2 (by decide) (by decide)
    (by decide) (by decide)).2.1

/-- Every element of the list lies within the plausibility band kept by the
recordings scan. -/
def InRangeList (l : List Rat) : Prop := ∀ v ∈ l, 0 ≤ v ∧ v ≤ 100

/-- Range invariant of the `location_temperatures` accumulator. -/
def TInv (lt : List (String × List Rat × List Rat)) : Prop :=
  ∀ e ∈ lt, InRangeList e.2.1 ∧ InRangeList e.2.2

theorem appendValid_inv {ml : List Rat × List Rat} {p : Rat × Rat}
    (hml : InRangeList ml.1 ∧ InRangeList ml.2) (hp : 0 ≤ p.1 ∧ 0 ≤ p.2) :
    InRangeList (appendValid ml p).1 ∧ InRangeList (appendValid ml p).2 := by
  unfold appendValid
  split
  · exact hml
  · rename_i hcond
    push_neg at hcond
    obtain ⟨hc1, hc2, hc3, hc4⟩ := hcond
    constructor
    · intro v hv
      rcases List.mem_append.mp hv with hv1 | hv1
      · exact hml.1 v hv1
      · have he : v = p.1 := by simpa using hv1
        subst he
        exact ⟨hp.1, hc2⟩
    · intro v hv
      rcases List.mem_append.mp hv with hv1 | hv1
      · exact hml.2 v hv1
      · have he : v = p.2 := by simpa using hv1
        subst he
        exact ⟨hp.2, hc4⟩

theorem foldl_appendValid_inv :
    ∀ (ps : List (Rat × Rat)), (∀ p ∈ ps, 0 ≤ p.1 ∧ 0 ≤ p.2) →
      ∀ (ml : List Rat × List Rat), InRangeList ml.1 ∧ InRangeList ml.2 →
      InRangeList (ps.foldl appendValid ml).1 ∧ InRangeList (ps.foldl appendValid ml).2 := by
  intro ps
  induction ps with
  | nil => exact fun _ ml h => h
  | cons q qs ih =>
    intro hps ml h
    rw [List.foldl_cons]
    exact ih (fun p hp => hps p (List.mem_cons_of_mem _ hp)) _
      (appendValid_inv h (hps q (List.mem_cons_self _ _)))

theorem TInv_setKey_empty {lt : List (String × List Rat × List Rat)} (h : TInv lt)
    (k : String) : TInv (setKey lt k ([], [])) := by
  intro e he
  rcases mem_setKey he with h1 | h1
  · exact h e h1
  · subst h1
    exact ⟨fun v hv => absurd hv (List.not_mem_nil v),
           fun v hv => absurd hv (List.not_mem_nil v)⟩

theorem TInv_updKey_append {lt : List (String × List Rat × List Rat)} (h : TInv lt)
    (k : String) (ps : List (Rat × Rat)) (hps : ∀ p ∈ ps, 0 ≤ p.1 ∧ 0 ≤ p.2) :
    TInv (updKey lt k (fun ml => ps.foldl appendValid ml)) := by
  intro e he
  rcases mem_updKey he with h1 | ⟨w, hw, he2⟩
  · exact h e h1
  · subst he2
    exact foldl_appendValid_inv ps hps w (h (k, w) hw)

theorem tempScanPairs_lt_cases (line : String) (st : TScan) :
    (tempScanPairs line st).location_temperatures = st.location_temperatures ∨
    (∃ k, (tempScanPairs line st).location_temperatures =
        setKey st.location_temperatures k ([], [])) ∨
    (∃ k, (tempScanPairs line st).location_temperatures =
        updKey st.location_temperatures k
          (fun ml => (findPairs line.data).foldl appendValid ml)) := by
  unfold tempScanPairs
  split
  · split
    · exact Or.inr (Or.inr ⟨_, rfl⟩)
    · exact Or.inl rfl
  · exact Or.inl rfl

theorem tempLineStep_lt_cases (lines : List String) (i : Nat) (line : String) (st : TScan) :
    (tempLineStep lines i line st).location_temperatures = st.location_temperatures ∨
    (∃ k, (tempLineStep lines i line st).location_temperatures =
        setKey st.location_temperatures k ([], [])) ∨
    (∃ k, (tempLineStep lines i line st).location_temperatures =
        updKey st.location_temperatures k
          (fun ml => (findPairs line.data).foldl appendValid ml)) := by
  unfold tempLineStep
  split
  · exact Or.inl rfl
  · split
    · exact Or.inl rfl
    · split
      · split
        · exact Or.inr (Or.inl ⟨_, rfl⟩)
        · exact Or.inl rfl
      · split
        · exact Or.inl rfl
        · have hc := tempScanPairs_lt_cases line st
          dsimp only
          split
          · exact hc
          · exact hc

theorem tempLineStep_inv {lines : List String} {i : Nat} {line : String} {st : TScan}
    (h : TInv st.location_temperatures) :
    TInv (tempLineStep lines i line st).location_temperatures := by
  rcases tempLineStep_lt_cases lines i line st with hc | ⟨k, hc⟩ | ⟨k, hc⟩
  · rw [hc]
    exact h
  · rw [hc]
    exact TInv_setKey_empty h k
  · rw [hc]
    exact TInv_updKey_append h k _ (findPairs_nonneg line.data)

theorem foldl_tempStep_inv (lines : List String) :
    ∀ (idx : List Nat) (st : TScan), TInv st.location_temperatures →
      TInv ((idx.foldl (fun s i => tempStep lines i s) st).location_temperatures) := by
  intro idx
  induction idx with
  | nil => exact fun st h => h
  | cons j js ih =>
    intro st h
    rw [List.foldl_cons]
    exact ih _ (tempLineStep_inv h)

theorem scan_recordings_inv (lines : List String) : TInv (scan_recordings lines) := by
  unfold scan_recordings
  apply foldl_tempStep_inv
  intro e he
  exact absurd he (List.not_mem_nil e)

theorem emit_samples_value_range :
    ∀ (lt : List (String × List Rat × List Rat)) (now : Nat), TInv lt →
      ∀ s ∈ emit_samples lt now, 0 ≤ s.value ∧ s.value ≤ 100 := by
  intro lt
  induction lt with
  | nil =>
    intro now _ s hs
    exact absurd hs (List.not_mem_nil s)
  | cons e rest ih =>
    obtain ⟨nm, mins, maxs⟩ := e
    intro now h s hs
    unfold emit_samples at hs
    rcases List.mem_append.mp hs with hs1 | hs1
    · have hinv := h (nm, mins, maxs) (List.mem_cons_self _ _)
      split at hs1
      · rename_i hne
        obtain ⟨hm1, hm2⟩ := hne
        simp only [List.mem_cons, List.not_mem_nil, or_false] at hs1
        rcases hs1 with hs1 | hs1
        · subst hs1
          cases mins with
          | nil => exact absurd rfl hm1
          | cons x xs => exact hinv.1 _ (pymin_mem x xs)
        · subst hs1
          cases maxs with
          | nil => exact absurd rfl hm2
          | cons x xs => exact hinv.2 _ (pymax_mem x xs)
      · exact absurd hs1 (List.not_mem_nil s)
    · exact ih now (fun e2 he2 => h e2 (List.mem_cons_of_mem _ he2)) s hs1

/-- All values held in an optional threshold are nonnegative. -/
def optNonneg (o : Option Rat) : Prop := ∀ v, o = some v → 0 ≤ v

/-- Threshold invariant of the block-extraction scan state. -/
def LInv (st : Option LocAccum × List LocationBlock) : Prop :=
  (∀ info, st.1 = some info →
    optNonneg info.min_temp_threshold ∧ optNonneg info.max_temp_threshold) ∧
  (∀ b ∈ st.2, optNonneg b.min_temp_threshold ∧ optNonneg b.max_temp_threshold)

theorem locLineStep_inv (lines : List String) (i : Nat) (line : String)
    {st : Option LocAccum × List LocationBlock} (h : LInv st) :
    LInv (locLineStep lines i line st) := by
  obtain ⟨h1, h2⟩ := h
  unfold locLineStep
  split
  · exact ⟨h1, h2⟩
  · split
    · refine ⟨?_, h2⟩
      intro info hinfo
      injection hinfo with hinfo
      subst hinfo
      exact ⟨fun v hv => Option.noConfusion hv, fun v hv => Option.noConfusion hv⟩
    · split
      · exact ⟨h1, h2⟩
      · rename_i info heq
        have hI := h1 info heq
        split
        · split
          · refine ⟨?_, h2⟩
            intro info2 hi2
            injection hi2 with hi2
            subst hi2
            exact hI
          · exact ⟨h1, h2⟩
        · split
          · split
            · refine ⟨?_, h2⟩
              intro info2 hi2
              injection hi2 with hi2
              subst hi2
              exact hI
            · exact ⟨h1, h2⟩
          · split
            · split
              · refine ⟨?_, h2⟩
                intro info2 hi2
                injection hi2 with hi2
                subst hi2
                exact hI
              · exact ⟨h1, h2⟩
            · split
              · split
                · rename_i v hv
                  refine ⟨?_, h2⟩
                  intro info2 hi2
                  injection hi2 with hi2
                  subst hi2
                  refine ⟨?_, hI.2⟩
                  intro w hw
                  injection hw with hw
                  subst hw
                  exact searchThresh_nonneg hv
                · exact ⟨h1, h2⟩
              · split
                · split
                  · rename_i v hv
                    refine ⟨?_, h2⟩
                    intro info2 hi2
                    injection hi2 with hi2
                    subst hi2
                    refine ⟨hI.1, ?_⟩
                    intro w hw
                    injection hw with hw
                    subst hw
                    exact searchThresh_nonneg hv
                  · exact ⟨h1, h2⟩
                · split
                  · refine ⟨fun info2 hi2 => Option.noConfusion hi2, ?_⟩
                    intro b hb
                    rcases List.mem_append.mp hb with hb1 | hb1
                    · exact h2 b hb1
                    · have hbe := List.mem_singleton.mp hb1
                      subst hbe
                      exact ⟨hI.1, hI.2⟩
                  · exact ⟨h1, h2⟩

theorem foldl_locStep_inv (lines : List String) :
    ∀ (idx : List Nat) (st : Option LocAccum × List LocationBlock), LInv st →
      LInv (idx.foldl (fun s i => locStep lines i s) st) := by
  intro idx
  induction idx with
  | nil => exact fun st h => h
  | cons j js ih =>
    intro st h
    rw [List.foldl_cons]
    exact ih _ (locLineStep_inv lines j _ h)

theorem _extract_locations_thresh (text : String) :
    ∀ b ∈ _extract_locations text,
      optNonneg b.min_temp_threshold ∧ optNonneg b.max_temp_threshold := by
  unfold _extract_locations
  intro b hb
  refine (foldl_locStep_inv (pySplitLines text) _ (none, []) ⟨?_, ?_⟩).2 b hb
  · exact fun info hinfo => Option.noConfusion hinfo
  · exact fun b2 hb2 => absurd hb2 (List.not_mem_nil b2)

/-- Claim C10: the recordings pattern and the threshold pattern capture only
unsigned decimals. Every scanned recordings pair is componentwise
nonnegative, so the reject-below-minus-fifty disjuncts of the plausibility
test can never fire; every threshold the search returns is nonnegative;
every emitted temperature sample value lies in the interval [0, 100]; and
every threshold stored in an extracted location block is nonnegative. -/
theorem claim_C10 :
    (∀ (cs : List Char) (p : Rat × Rat), p ∈ findPairs cs → 0 ≤ p.1 ∧ 0 ≤ p.2) ∧
    (∀ (cs : List Char) (p : Rat × Rat), p ∈ findPairs cs →
        ¬ (p.1 < -50) ∧ ¬ (p.2 < -50)) ∧
    (∀ (cs : List Char) (v : Rat), searchThresh cs = some v → 0 ≤ v) ∧
    (∀ (text : String) (locs : List LocationBlock) (now : Nat) (s : TempSample),
        s ∈ _extract_temperatures text locs now → 0 ≤ s.value ∧ s.value ≤ 100) ∧
    (∀ (text : String) (b : LocationBlock), b ∈ _extract_locations text →
        (∀ v, b.min_temp_threshold = some v → 0 ≤ v) ∧
        (∀ v, b.max_temp_threshold = some v → 0 ≤ v)) := by
  refine ⟨findPairs_nonneg, ?_, fun cs v h => searchThresh_nonneg h, ?_, ?_⟩
  · intro cs p hp
    obtain ⟨h1, h2⟩ := findPairs_nonneg cs p hp
    constructor
    · intro hlt
      have : (0 : Rat) < -50 := lt_of_le_of_lt h1 hlt
      norm_num at this
    · intro hlt
      have : (0 : Rat) < -50 := lt_of_le_of_lt h2 hlt
      norm_num at this
  · intro text locs now s hs
    unfold _extract_temperatures at hs
    exact emit_samples_value_range _ now (scan_recordings_inv _) s hs
  · exact _extract_locations_thresh

/-- Witness for C10 at a concrete recordings line: the scanned pair is
componentwise nonnegative. -/
theorem claim_C10_witness :
    0 ≤ ((mkRat 39 10, (5 : Rat)) : Rat × Rat).1 ∧
      0 ≤ ((mkRat 39 10, (5 : Rat)) : Rat × Rat).2 :=
  claim_C10.1 ("3.9°C 5.0°C").data (mkRat 39 10, 5) (by decide)

end TemperatureMonitor
